import Mathlib

/-!
Verification of the HF-Download repository (`src/mobile/hf_downloader_mobile.py`)
against its natural-language specification.

The Python source is shallowly embedded: the URL resolver, the remote size
probe, the resumable transfer engine (`HFDownloader.download_file`) and the
batch orchestrator (`HFDownloaderApp._download_selected_files`) become pure
Lean functions over explicit environments describing the network and the
local file system.  Callback invocations, issued GETs and back-off sleeps are
recorded as an event trace, so that ordering and counting properties can be
stated directly.
-/

namespace HFDownload

/-! ## URL Resolver (`HFDownloader.parse_hf_url`, source lines 68-113) -/

/-- Python `url.split('?')[0]`: the prefix before the first `'?'`. -/
def stripQuery (s : String) : String := String.mk (s.toList.takeWhile (fun c => c ≠ '?'))

/-- Characters before the first `'/'` together with the remainder (which is
either empty or starts with `'/'`).  This is exactly what the regex fragment
`([^/]+)` can match (the character class cannot cross a slash, so the match
is forced), plus its continuation. -/
def seg (cs : List Char) : List Char × List Char :=
  (cs.takeWhile (fun c => c ≠ '/'), cs.dropWhile (fun c => c ≠ '/'))

/-- Matcher for the regex tail `([^/]+)/([^/]+)/tree/([^/]+)(?:/(.*))?`
(what follows the host literal in the two `tree_patterns`).  The last group
is `none` when the optional `(?:/(.*))?` part is absent.  Inputs are assumed
newline-free, so `(.*)` takes the whole rest of the string. -/
def treeTail (cs : List Char) : Option (String × String × String × Option String) :=
  let (u, r1) := seg cs
  if u.isEmpty then none else
  match r1 with
  | '/' :: r2 =>
    let (m, r3) := seg r2
    if m.isEmpty then none else
    if r3.take 6 = ['/', 't', 'r', 'e', 'e', '/'] then
      let (b, r5) := seg (r3.drop 6)
      if b.isEmpty then none else
      match r5 with
      | [] => some (String.mk u, String.mk m, String.mk b, none)
      | _ :: rest => some (String.mk u, String.mk m, String.mk b, some (String.mk rest))
    else none
  | _ => none

/-- Matcher for the regex tail `([^/]+)/([^/]+)<kw>([^/]+)/(.+)` where `kw`
is `"/resolve/"` or `"/blob/"` (the two `file_patterns` shapes). -/
def fileTail (kw : List Char) (cs : List Char) : Option (String × String × String × String) :=
  let (u, r1) := seg cs
  if u.isEmpty then none else
  match r1 with
  | '/' :: r2 =>
    let (m, r3) := seg r2
    if m.isEmpty then none else
    if r3.take kw.length = kw then
      let (b, r5) := seg (r3.drop kw.length)
      if b.isEmpty then none else
      match r5 with
      | '/' :: rest => if rest.isEmpty then none else
          some (String.mk u, String.mk m, String.mk b, String.mk rest)
      | _ => none
    else none
  | _ => none

/-- `re.search` for a pattern that begins with the literal `pat` and whose
remainder is matched (deterministically) by `tailM`: try every start
position left to right, first success wins. -/
def searchFrom (pat : List Char) (tailM : List Char → Option α) : List Char → Option α
  | [] => none
  | c :: rest =>
    match (if (c :: rest).take pat.length = pat
           then tailM ((c :: rest).drop pat.length) else none) with
    | some r => some r
    | none => searchFrom pat tailM rest

def hfMirrorHost : List Char := "hf-mirror.com/".toList

def huggingfaceHost : List Char := "huggingface.co/".toList

/-- The `repo_info` dictionary built for directory URLs. -/
structure RepoInfo where
  username : String
  model : String
  branch : String
  subpath : String
deriving Repr, DecidableEq

/-- The two `tree_patterns`, tried in source order. -/
def treeMatch (u : String) : Option (String × String × String × Option String) :=
  match searchFrom hfMirrorHost treeTail u.toList with
  | some r => some r
  | none => searchFrom huggingfaceHost treeTail u.toList

/-- The four `file_patterns`, tried in source order
(mirror/resolve, mirror/blob, canonical/resolve, canonical/blob). -/
def fileMatch (u : String) : Option (String × String × String × String) :=
  match searchFrom hfMirrorHost (fileTail "/resolve/".toList) u.toList with
  | some r => some r
  | none =>
  match searchFrom hfMirrorHost (fileTail "/blob/".toList) u.toList with
  | some r => some r
  | none =>
  match searchFrom huggingfaceHost (fileTail "/resolve/".toList) u.toList with
  | some r => some r
  | none => searchFrom huggingfaceHost (fileTail "/blob/".toList) u.toList

def hexVal (c : Char) : Option Nat :=
  if '0' ≤ c ∧ c ≤ '9' then some (c.toNat - 48)
  else if 'a' ≤ c ∧ c ≤ 'f' then some (c.toNat - 87)
  else if 'A' ≤ c ∧ c ≤ 'F' then some (c.toNat - 55)
  else none

/-- Byte-level model of `urllib.parse.unquote`: decode `%hh` escapes, leave
malformed escapes untouched.  (Multi-byte UTF-8 sequences are decoded
byte-wise; the claims never exercise non-ASCII input.) -/
def percentDecodeList : List Char → List Char
  | [] => []
  | '%' :: a :: b :: rest2 =>
    match hexVal a, hexVal b with
    | some x, some y => Char.ofNat (16 * x + y) :: percentDecodeList rest2
    | _, _ => '%' :: percentDecodeList (a :: b :: rest2)
  | '%' :: rest => '%' :: percentDecodeList rest
  | c :: rest => c :: percentDecodeList rest

def unquote (s : String) : String := String.mk (percentDecodeList s.toList)

/-- Python `os.path.basename` for POSIX paths: everything after the last `'/'`. -/
def basename (s : String) : String := (s.splitOn "/").getLastD s

def isSchemeChar (c : Char) : Bool := c.isAlphanum || c = '+' || c = '-' || c = '.'

/-- Modelled after `urllib.parse.urlparse(url).path` for the URL shapes
reachable in the opaque-URL branch (the query string was already stripped):
drop a fragment, then a `scheme://netloc` or plain `scheme:` head. -/
def urlPath (s : String) : String :=
  let cs := ((s.splitOn "#").headD s).toList
  let pre := cs.takeWhile (fun c => c ≠ ':')
  match cs.dropWhile (fun c => c ≠ ':') with
  | _ :: rest =>
    if pre ≠ [] ∧ pre.all isSchemeChar then
      if rest.take 2 = ['/', '/'] then
        String.mk ((rest.drop 2).dropWhile (fun c => c ≠ '/'))
      else String.mk rest
    else String.mk cs
  | [] => String.mk cs

/-- Shallow embedding of `HFDownloader.parse_hf_url`.  The result mirrors the
Python 4-tuple `(download_url, filename, is_directory, repo_info)`. -/
def parse_hf_url (url : String) : Option String × Option String × Bool × Option RepoInfo :=
  let u := stripQuery url
  match treeMatch u with
  | some (username, model, branch, subpath) =>
    (none, none, true, some ⟨username, model, branch, subpath.getD ""⟩)
  | none =>
  match fileMatch u with
  | some (username, model, branch, filepath) =>
    (some ("https://hf-mirror.com/" ++ username ++ "/" ++ model ++ "/resolve/" ++
           branch ++ "/" ++ filepath),
     some (basename (unquote filepath)), false, none)
  | none =>
    if u.startsWith "http" then
      let fn := basename (unquote (urlPath u))
      (some u, some (if fn = "" then "downloaded_file" else fn), false, none)
    else (none, none, false, none)

/-! ## Remote Metadata Probe (`HFDownloader.get_file_size`, lines 115-123) -/

/-- Outcome of the header-only request issued by `get_file_size`:
either a network-level failure (any exception) or a response with a status
and an optional declared `Content-Length`. -/
inductive HeadResult
  | netFail
  | resp (status : Nat) (contentLength : Option Nat)
deriving Repr, DecidableEq

/-- Shallow embedding of `HFDownloader.get_file_size`: the declared length on
a 200 response, and the sentinel 0 in every other case.  The function is
total: the Python `try/except` guarantees no exception escapes. -/
def get_file_size : HeadResult → Nat
  | .netFail => 0
  | .resp status cl => if status = 200 then cl.getD 0 else 0

/-! ## Resumable Transfer Engine (`HFDownloader.download_file`, lines 133-232)

The engine is embedded as a deterministic function of an `Env` describing
everything outside the Python code: the network (one `GetResult` per issued
GET, indexed by a global GET counter), the HEAD probe outcome, whether
`os.makedirs` succeeds, the size of any file already at `save_path`, and the
value the shared `cancel_flag` has when it is read at the n-th chunk
iteration.  Progress/status callbacks, GETs and back-off sleeps are recorded
in an event trace. -/

/-- One observable step of `download_file`: a `status_callback` message, a
`progress_callback(percentage, downloaded, total)` call, an issued GET with
its optional `Range` start, or a `time.sleep` back-off. -/
inductive Event
  | statusMsg (s : String)
  | progress (pct : ℚ) (downloaded total : Nat)
  | getReq (range : Option Nat)
  | sleep (secs : Nat)
deriving Repr, DecidableEq

/-- Outcome of one `session.get` call: a transient network exception at
request time (`ConnectionError`/`Timeout`), a non-transient exception, or a
response carrying an HTTP status and a streamed body.  `chunks` are the
chunk sizes delivered by `iter_content` before the stream ends; `clean` is
true for a clean end of stream and false when the stream is cut by a
transient error (`ChunkedEncodingError` or a timeout mid-body). -/
inductive GetResult
  | netFail
  | raiseOther (msg : String)
  | resp (status : Nat) (chunks : List Nat) (clean : Bool)
deriving Repr, DecidableEq

/-- The world `download_file` runs in. `server i r` is the outcome of the
i-th GET issued in this invocation, with `r` the `Range` start it carries
(`none` when no Range header is sent). `cancel n` is the value of
`self.cancel_flag` read at the n-th chunk iteration (the flag is reset at
the top of `download_file`, then possibly set by the controller). -/
structure Env where
  server : Nat → Option Nat → GetResult
  head : HeadResult
  mkdirOk : Bool
  initFile : Option Nat
  cancel : Nat → Bool

/-- Mutable context threaded through the transfer: size of the file at
`save_path` (`none` = absent), the event trace so far, the number of GETs
issued and the chunk-iteration counter. -/
structure St where
  fs : Option Nat
  events : List Event
  getIdx : Nat
  step : Nat
deriving Repr, DecidableEq

def St.emit (st : St) (e : Event) : St := { st with events := st.events ++ [e] }

/-- The `for chunk in response.iter_content(...)` loop (lines 187-204):
per chunk, check `cancel_flag`; on cancel report "Cancelled" and stop;
otherwise write the chunk, grow `downloaded_size`, and when the total is
known report percentage progress.  Empty keep-alive chunks are skipped by
`if chunk:`.  Returns the new context, the new `downloaded_size`, and
whether the loop was cancelled. -/
def streamChunks (cancel : Nat → Bool) (total : Nat) :
    List Nat → Nat → St → St × Nat × Bool
  | [], d, st => (st, d, false)
  | c :: rest, d, st =>
    if cancel st.step then
      (st.emit (.statusMsg "Cancelled"), d, true)
    else
      let st1 : St := { st with step := st.step + 1 }
      if c = 0 then streamChunks cancel total rest d st1
      else
        let d1 := d + c
        let st2 : St := { st1 with fs := some (st1.fs.getD 0 + c) }
        let st3 := if total > 0 then
            st2.emit (.progress ((d1 : ℚ) / (total : ℚ) * 100) d1 total) else st2
        streamChunks cancel total rest d1 st3

/-- Outcome of one iteration of the retry loop: `done` = `return True`,
`fail` = `return False` (terminal), `transient` = a retryable network
exception escaped, carrying the current `downloaded_size`. -/
inductive AttOut
  | done (st : St)
  | fail (st : St)
  | transient (st : St) (d : Nat)
deriving Repr, DecidableEq

/-- The context an `AttOut` carries. -/
def AttOut.st : AttOut → St
  | .done st => st
  | .fail st => st
  | .transient st _ => st

/-- Issue one GET (recording it) and consume one index of the server oracle. -/
def issueGet (env : Env) (range : Option Nat) (st : St) : GetResult × St :=
  (env.server st.getIdx range,
   { st with getIdx := st.getIdx + 1, events := st.events ++ [Event.getReq range] })

/-- Lines 178-208: the part of an attempt after a response was obtained:
reject statuses outside {200, 206}, open the file for append (resuming) or
truncate (fresh), stream the body, and report "Done!" on a clean end. -/
def runBody (env : Env) (total d status : Nat) (chunks : List Nat) (clean : Bool)
    (st : St) : AttOut :=
  if status ≠ 200 ∧ status ≠ 206 then
    .fail (st.emit (.statusMsg ("HTTP " ++ toString status)))
  else
    let st : St := { st with fs := if d > 0 then some (st.fs.getD 0) else some 0 }
    match streamChunks env.cancel total chunks d st with
    | (st, d2, true) => .fail st
    | (st, d2, false) =>
      if clean then .done (st.emit (.statusMsg "Done!"))
      else .transient st d2

/-- Lines 171-212: one iteration of the retry loop.  Issue the GET (with the
current Range header); if a range was requested but the status is not 206,
reset `downloaded_size` to 0 and reissue a plain full GET (lines 174-176);
then hand over to `runBody`.  Transient exceptions at either GET surface as
`transient`; any other exception is terminal. -/
def runAttempt (env : Env) (d : Nat) (range : Option Nat) (total : Nat) (st : St) : AttOut :=
  match issueGet env range st with
  | (.netFail, st) => .transient st d
  | (.raiseOther msg, st) => .fail (st.emit (.statusMsg ("Error: " ++ msg.take 30)))
  | (.resp status chunks clean, st) =>
    if d > 0 ∧ status ≠ 206 then
      match issueGet env none st with
      | (.netFail, st) => .transient st 0
      | (.raiseOther msg, st) => .fail (st.emit (.statusMsg ("Error: " ++ msg.take 30)))
      | (.resp s2 ch2 cl2, st) => runBody env total 0 s2 ch2 cl2 st
    else runBody env total d status chunks clean st

/-- Lines 167-232: `while retry_count < max_retries` with `max_retries = 3`.
`fuel` is `max_retries - retry_count` (3 at entry), `rc` is `retry_count`.
On a transient failure: increment the count; if attempts remain, report
"retrying", sleep 2 s, and re-derive `downloaded_size` (and the Range
header) from the size of the file actually on disk when it exists
(lines 213-222); otherwise report "Network failed" and return false. -/
def retryLoop (env : Env) (total : Nat) : Nat → Nat → Nat → Option Nat → St → Bool × St
  | 0, _, _, _, st => (false, st)
  | fuel + 1, rc, d, range, st =>
    match runAttempt env d range total st with
    | .done st => (true, st)
    | .fail st => (false, st)
    | .transient st d2 =>
      if rc + 1 < 3 then
        let st := (st.emit (.statusMsg ("Network error, retry " ++ toString (rc + 1) ++
          "/3..."))).emit (.sleep 2)
        match st.fs with
        | some n => retryLoop env total fuel (rc + 1) n (some n) st
        | none => retryLoop env total fuel (rc + 1) d2 range st
      else
        (false, st.emit (.statusMsg "Network failed"))

/-- Shallow embedding of `HFDownloader.download_file` (lines 133-232).
Returns the Python boolean result together with the final context (file
size, event trace).  Step order follows the source: `makedirs`; derive
`downloaded_size` from the existing file; HEAD probe; already-complete
shortcut; Range header and "Resuming..." status; retry loop. -/
def download_file (env : Env) : Bool × St :=
  let st0 : St := ⟨env.initFile, [], 0, 0⟩
  if env.mkdirOk = false then
    (false, st0.emit (.statusMsg "Path error"))
  else
    let d := env.initFile.getD 0
    let total := get_file_size env.head
    if d > 0 ∧ total > 0 ∧ d = total then
      (true, (st0.emit (.statusMsg "File exists")).emit (.progress 100 total total))
    else
      if d > 0 then
        retryLoop env total 3 0 d (some d) (st0.emit (.statusMsg "Resuming..."))
      else
        retryLoop env total 3 0 d none st0

/-- Lines 189-190: `while self.pause_flag and not self.cancel_flag:
time.sleep(0.1)`, with `pause t`/`cancel t` the flag values read at poll
tick `t`.  `fuel` bounds the number of polls we observe; the result is the
tick at which the wait unblocks, or `none` if it is still blocked after
`fuel` polls. -/
def pauseWait (pause cancel : Nat → Bool) : Nat → Nat → Option Nat
  | _, 0 => none
  | t, fuel + 1 =>
    if pause t && !cancel t then pauseWait pause cancel (t + 1) fuel else some t

/-- Projection: the Range headers of the GETs in a trace, in order. -/
def getRanges (evs : List Event) : List (Option Nat) :=
  evs.filterMap fun e => match e with
    | .getReq r => some r
    | _ => none

/-- Projection: the byte counts handed to `progress_callback`, in order. -/
def progressBytes (evs : List Event) : List Nat :=
  evs.filterMap fun e => match e with
    | .progress _ d _ => some d
    | _ => none

/-- Projection: the durations of the `time.sleep` back-offs, in order. -/
def sleeps (evs : List Event) : List Nat :=
  evs.filterMap fun e => match e with
    | .sleep n => some n
    | _ => none

/-- Projection: the `status_callback` messages, in order. -/
def statuses (evs : List Event) : List String :=
  evs.filterMap fun e => match e with
    | .statusMsg s => some s
    | _ => none

/-! ## Batch Orchestrator (`HFDownloaderApp._download_selected_files`,
lines 840-878) and the manifest helpers (lines 403-481) -/

/-- Observable steps of a batch run: the per-file log lines (path error,
"(done)" skip, "RESUME e/s", plain fresh line), a delegated
`download_file` invocation, a write or delete of the on-disk state manifest
(`save_download_state` / `clear_download_state`), and the final
`_download_finished` notification.  File indices are 1-based, as in
`enumerate(files, 1)`. -/
inductive BatchEv
  | pathError (idx : Nat) (path : String)
  | logDone (idx : Nat) (path : String)
  | logResume (idx : Nat) (path : String) (existing size : Nat)
  | logFresh (idx : Nat) (path : String)
  | transfer (idx : Nat) (path url : String)
  | manifestSave (files : List (String × String × Nat)) (saveDir url : String)
  | manifestClear
  | batchFinished
deriving Repr, DecidableEq

/-- The world the batch loop runs in: the value of `self.is_downloading`
read before the i-th (1-based) file, the size of any existing local file
for each relative path, and whether `os.makedirs` succeeds for it. -/
structure BatchEnv where
  isDownloading : Nat → Bool
  localSize : String → Option Nat
  mkdirOkFor : String → Bool

/-- The per-file body of the loop (lines 847-875): create the directory
(on failure log and continue with the next file); classify by comparing the
existing local size with the declared size — `0 < existing < size` logs a
RESUME line, `existing ≥ size > 0` logs "(done)" and skips the transfer
(`continue`), anything else logs a fresh line — and otherwise delegate to
`download_file` (whose result is discarded by the source). -/
def batchStep (env : BatchEnv) (idx : Nat) (path url : String) (size : Nat) :
    List BatchEv :=
  if env.mkdirOkFor path = false then [.pathError idx path]
  else
    let e := (env.localSize path).getD 0
    if 0 < e ∧ e < size then [.logResume idx path e size, .transfer idx path url]
    else if size ≤ e ∧ 0 < size then [.logDone idx path]
    else [.logFresh idx path, .transfer idx path url]

/-- The `for i, (path, url, size) in enumerate(files, 1)` loop, reading
`self.is_downloading` before each file and breaking out of the whole batch
when it is false (lines 843-845). -/
def batchLoop (env : BatchEnv) : Nat → List (String × String × Nat) → List BatchEv
  | _, [] => []
  | idx, (path, url, size) :: rest =>
    if env.isDownloading idx = false then []
    else batchStep env idx path url size ++ batchLoop env (idx + 1) rest

/-- Shallow embedding of `_download_selected_files`: run the loop over the
selected files in listing order, then schedule `_download_finished`. -/
def download_selected_files (env : BatchEnv) (files : List (String × String × Nat)) :
    List BatchEv :=
  batchLoop env 1 files ++ [.batchFinished]

/-- The JSON object `save_download_state` writes (lines 413-426). -/
structure ManifestState where
  files : List (String × String × Nat)
  saveDir : String
  url : String
deriving Repr, DecidableEq

/-- Shallow embedding of `HFDownloaderApp.save_download_state`: a silent
no-op when `self.state_file` is unset (it is `None` unless
`init_state_file` ran), otherwise write the manifest
`{files, save_dir, url}`.  Returns the file content written, if any. -/
def save_download_state (stateFile : Option String)
    (files : List (String × String × Nat)) (saveDir url : String) :
    Option ManifestState :=
  match stateFile with
  | none => none
  | some _ => some ⟨files, saveDir, url⟩

/-- Shallow embedding of the classification inside
`HFDownloaderApp.check_pending_downloads` (lines 460-469): an entry is
pending when the local file is absent or strictly smaller than the declared
size. -/
def pendingOf (localSize : String → Option Nat)
    (files : List (String × String × Nat)) : List (String × String × Nat) :=
  files.filter fun f =>
    match localSize f.1 with
    | some e => decide (e < f.2.2)
    | none => true

/-- True when a batch trace never touches the manifest. -/
def manifestFree (evs : List BatchEv) : Bool :=
  evs.all fun e => match e with
    | .manifestSave _ _ _ => false
    | .manifestClear => false
    | _ => true

/-! ## Helper lemmas: trace projections -/

@[simp] lemma getRanges_nil : getRanges [] = [] := rfl

@[simp] lemma getRanges_append (l1 l2 : List Event) :
    getRanges (l1 ++ l2) = getRanges l1 ++ getRanges l2 :=
  List.filterMap_append l1 l2 _

@[simp] lemma getRanges_statusMsg (s : String) (l : List Event) :
    getRanges (Event.statusMsg s :: l) = getRanges l := rfl

@[simp] lemma getRanges_progress (p : ℚ) (d t : Nat) (l : List Event) :
    getRanges (Event.progress p d t :: l) = getRanges l := rfl

@[simp] lemma getRanges_sleep (n : Nat) (l : List Event) :
    getRanges (Event.sleep n :: l) = getRanges l := rfl

@[simp] lemma getRanges_getReq (r : Option Nat) (l : List Event) :
    getRanges (Event.getReq r :: l) = r :: getRanges l := rfl

@[simp] lemma progressBytes_nil : progressBytes [] = [] := rfl

@[simp] lemma progressBytes_append (l1 l2 : List Event) :
    progressBytes (l1 ++ l2) = progressBytes l1 ++ progressBytes l2 :=
  List.filterMap_append l1 l2 _

@[simp] lemma progressBytes_statusMsg (s : String) (l : List Event) :
    progressBytes (Event.statusMsg s :: l) = progressBytes l := rfl

@[simp] lemma progressBytes_progress (p : ℚ) (d t : Nat) (l : List Event) :
    progressBytes (Event.progress p d t :: l) = d :: progressBytes l := rfl

@[simp] lemma progressBytes_sleep (n : Nat) (l : List Event) :
    progressBytes (Event.sleep n :: l) = progressBytes l := rfl

@[simp] lemma progressBytes_getReq (r : Option Nat) (l : List Event) :
    progressBytes (Event.getReq r :: l) = progressBytes l := rfl

@[simp] lemma sleeps_nil : sleeps [] = [] := rfl

@[simp] lemma sleeps_append (l1 l2 : List Event) :
    sleeps (l1 ++ l2) = sleeps l1 ++ sleeps l2 :=
  List.filterMap_append l1 l2 _

@[simp] lemma sleeps_statusMsg (s : String) (l : List Event) :
    sleeps (Event.statusMsg s :: l) = sleeps l := rfl

@[simp] lemma sleeps_progress (p : ℚ) (d t : Nat) (l : List Event) :
    sleeps (Event.progress p d t :: l) = sleeps l := rfl

@[simp] lemma sleeps_sleep (n : Nat) (l : List Event) :
    sleeps (Event.sleep n :: l) = n :: sleeps l := rfl

@[simp] lemma sleeps_getReq (r : Option Nat) (l : List Event) :
    sleeps (Event.getReq r :: l) = sleeps l := rfl

/-- Traces produced inside the streaming loop contain only progress events. -/
def progressOnly (evs : List Event) : Prop :=
  ∀ e ∈ evs, ∃ p d t, e = Event.progress p d t

lemma progressOnly_nil : progressOnly [] := by
  intro e he
  cases he

lemma progressOnly_cons {p : ℚ} {d t : Nat} {l : List Event} (h : progressOnly l) :
    progressOnly (Event.progress p d t :: l) := by
  intro e he
  rcases List.mem_cons.mp he with rfl | hm
  · exact ⟨p, d, t, rfl⟩
  · exact h e hm

lemma getRanges_of_progressOnly {evs : List Event} (h : progressOnly evs) :
    getRanges evs = [] := by
  induction evs with
  | nil => rfl
  | cons e rest ih =>
    obtain ⟨p, d, t, rfl⟩ := h e (List.mem_cons_self e rest)
    simpa using ih (fun x hx => h x (List.mem_cons_of_mem _ hx))

lemma sleeps_of_progressOnly {evs : List Event} (h : progressOnly evs) :
    sleeps evs = [] := by
  induction evs with
  | nil => rfl
  | cons e rest ih =>
    obtain ⟨p, d, t, rfl⟩ := h e (List.mem_cons_self e rest)
    simpa using ih (fun x hx => h x (List.mem_cons_of_mem _ hx))

/-! ## Helper lemmas: the streaming loop without cancellation -/

/-- Full characterization of the chunk loop when the cancel flag is never
set: every chunk is written, `downloaded_size` and the on-disk size grow by
the total chunk volume, the loop is not cancelled, and only progress events
are emitted. -/
lemma streamChunks_nocancel (cancel : Nat → Bool) (hc : ∀ n, cancel n = false)
    (total : Nat) (ch : List Nat) :
    ∀ (d f : Nat) (st : St), st.fs = some f →
    ∃ evNew, progressOnly evNew ∧
      streamChunks cancel total ch d st =
        ({ fs := some (f + ch.sum), events := st.events ++ evNew,
           getIdx := st.getIdx, step := st.step + ch.length }, d + ch.sum, false) := by
  induction ch with
  | nil =>
    intro d f st hf
    refine ⟨[], progressOnly_nil, ?_⟩
    cases st
    simp only [streamChunks, List.sum_nil, List.length_nil, Nat.add_zero, List.append_nil]
    simp_all
  | cons c rest ih =>
    intro d f st hf
    by_cases hc0 : c = 0
    · subst hc0
      obtain ⟨evNew, hpo, heq⟩ := ih d f { st with step := st.step + 1 } hf
      refine ⟨evNew, hpo, ?_⟩
      rw [streamChunks, hc st.step]
      simp only [if_neg (by simp : ¬ (false = true)), if_pos rfl, heq]
      simp [Nat.add_assoc, Nat.add_comm 1 rest.length]
    · obtain ⟨evNew, hpo, heq⟩ :=
        ih (d + c) (f + c)
          (if total > 0 then
            (({ st with step := st.step + 1, fs := some (f + c) } : St).emit
              (.progress (((d + c : Nat) : ℚ) / (total : ℚ) * 100) (d + c) total))
          else { st with step := st.step + 1, fs := some (f + c) })
          (by split <;> simp [St.emit])
      by_cases ht : total > 0
      · refine ⟨Event.progress (((d + c : Nat) : ℚ) / (total : ℚ) * 100) (d + c) total :: evNew,
          progressOnly_cons hpo, ?_⟩
        rw [streamChunks, hc st.step]
        simp only [if_neg (by simp : ¬ (false = true)), if_neg hc0, hf]
        rw [if_pos ht] at heq ⊢
        simp only [Option.getD_some, St.emit] at heq ⊢
        rw [heq]
        simp [Nat.add_assoc, Nat.add_comm 1 rest.length, Nat.add_comm c rest.sum]
      · refine ⟨evNew, hpo, ?_⟩
        rw [streamChunks, hc st.step]
        simp only [if_neg (by simp : ¬ (false = true)), if_neg hc0, hf]
        rw [if_neg ht] at heq ⊢
        simp only [Option.getD_some] at heq ⊢
        rw [heq]
        simp [Nat.add_assoc, Nat.add_comm 1 rest.length, Nat.add_comm c rest.sum]

/-! ## Helper lemmas: the streaming loop under cancellation -/

/-- Full characterization of the chunk loop when the cancel flag turns true
from chunk iteration `K` on (and `K` falls inside this body): exactly the
first `K - st.step` chunks are written, then the loop reports "Cancelled"
and stops — within one chunk boundary, leaving the bytes written so far on
disk. -/
lemma streamChunks_cancelAt (total K : Nat) (ch : List Nat) :
    ∀ (d f : Nat) (st : St), st.fs = some f → st.step ≤ K → K < st.step + ch.length →
    ∃ evNew, progressOnly evNew ∧
      streamChunks (fun n => decide (K ≤ n)) total ch d st =
        ({ fs := some (f + (ch.take (K - st.step)).sum),
           events := st.events ++ evNew ++ [Event.statusMsg "Cancelled"],
           getIdx := st.getIdx, step := K }, d + (ch.take (K - st.step)).sum, true) := by
  induction ch with
  | nil =>
    intro d f st hf h1 h2
    simp at h2
    omega
  | cons c rest ih =>
    intro d f st hf h1 h2
    by_cases hK : st.step = K
    · refine ⟨[], progressOnly_nil, ?_⟩
      rw [streamChunks]
      rw [if_pos (by simp [hK])]
      cases st
      simp_all [St.emit]
    · have hlt : st.step < K := lt_of_le_of_ne h1 hK
      have hdec : (decide (K ≤ st.step) = true) = False := by simp; omega
      have htake : (c :: rest).take (K - st.step) = c :: rest.take (K - (st.step + 1)) := by
        have : K - st.step = (K - (st.step + 1)) + 1 := by omega
        rw [this, List.take_succ_cons]
      by_cases hc0 : c = 0
      · subst hc0
        obtain ⟨evNew, hpo, heq⟩ := ih d f { st with step := st.step + 1 } hf
          (by simp; omega) (by simp at h2 ⊢; omega)
        refine ⟨evNew, hpo, ?_⟩
        rw [streamChunks]
        rw [if_neg (by simp; omega)]
        simp only [if_pos rfl, heq, htake]
        simp
      · obtain ⟨evNew, hpo, heq⟩ :=
          ih (d + c) (f + c)
            (if total > 0 then
              (({ st with step := st.step + 1, fs := some (f + c) } : St).emit
                (.progress (((d + c : Nat) : ℚ) / (total : ℚ) * 100) (d + c) total))
            else { st with step := st.step + 1, fs := some (f + c) })
            (by split <;> simp [St.emit])
            (by split <;> simp [St.emit] <;> omega)
            (by simp at h2; split <;> simp [St.emit] <;> omega)
        by_cases ht : total > 0
        · refine ⟨Event.progress (((d + c : Nat) : ℚ) / (total : ℚ) * 100) (d + c) total :: evNew,
            progressOnly_cons hpo, ?_⟩
          rw [streamChunks]
          rw [if_neg (by simp; omega)]
          simp only [if_neg hc0, hf, Option.getD_some]
          rw [if_pos ht] at heq ⊢
          simp only [St.emit] at heq ⊢
          rw [heq, htake]
          simp [Nat.add_assoc, Nat.add_comm c]
        · refine ⟨evNew, hpo, ?_⟩
          rw [streamChunks]
          rw [if_neg (by simp; omega)]
          simp only [if_neg hc0, hf, Option.getD_some]
          rw [if_neg ht] at heq ⊢
          rw [heq, htake]
          simp [Nat.add_assoc, Nat.add_comm c]

/-! ## Helper lemmas: monotone progress chains -/

lemma chain_le_init {xs : List Nat} {a : Nat}
    (h : List.Chain' (fun x y : Nat => x ≤ y) (xs ++ [a])) :
    List.Chain' (fun x y : Nat => x ≤ y) xs :=
  (List.chain'_append.mp h).1

lemma chain_le_replace {xs : List Nat} {a b : Nat}
    (h : List.Chain' (fun x y : Nat => x ≤ y) (xs ++ [a])) (hab : a ≤ b) :
    List.Chain' (fun x y : Nat => x ≤ y) (xs ++ [b]) := by
  rw [List.chain'_append] at h ⊢
  refine ⟨h.1, List.chain'_singleton b, ?_⟩
  intro x hx y hy
  simp at hy
  subst hy
  exact le_trans (h.2.2 x hx a (by simp)) hab

lemma chain_le_snoc2 {xs : List Nat} {a b : Nat}
    (h : List.Chain' (fun x y : Nat => x ≤ y) (xs ++ [a])) (hab : a ≤ b) :
    List.Chain' (fun x y : Nat => x ≤ y) (xs ++ [b] ++ [b]) := by
  rw [List.append_assoc, List.chain'_append] at *
  refine ⟨h.1, ?_, ?_⟩
  · simp [List.chain'_cons]
  · intro x hx y hy
    simp at hy
    subst hy
    exact le_trans (h.2.2 x hx a (by simp)) hab

/-- Invariant of the chunk loop (any cancel behaviour): `downloaded_size`
tracks the on-disk size, never decreases, and the progress byte counts ever
reported, extended by the current `downloaded_size`, form a non-decreasing
chain. -/
lemma streamChunks_chain (cancel : Nat → Bool) (total : Nat) (ch : List Nat) :
    ∀ (d : Nat) (st st2 : St) (d2 : Nat) (b : Bool), st.fs = some d →
    List.Chain' (fun x y : Nat => x ≤ y) (progressBytes st.events ++ [d]) →
    streamChunks cancel total ch d st = (st2, d2, b) →
    st2.fs = some d2 ∧ d ≤ d2 ∧
      List.Chain' (fun x y : Nat => x ≤ y) (progressBytes st2.events ++ [d2]) := by
  induction ch with
  | nil =>
    intro d st st2 d2 b hf hch heq
    rw [streamChunks] at heq
    cases heq
    exact ⟨hf, le_refl d, hch⟩
  | cons c rest ih =>
    intro d st st2 d2 b hf hch heq
    rw [streamChunks] at heq
    by_cases hcan : cancel st.step
    · rw [if_pos hcan] at heq
      cases heq
      exact ⟨hf, le_refl d, by simpa [St.emit] using hch⟩
    · rw [if_neg hcan] at heq
      by_cases hc0 : c = 0
      · rw [if_pos hc0] at heq
        exact ih d { st with step := st.step + 1 } st2 d2 b hf hch heq
      · rw [if_neg hc0] at heq
        simp only [St.emit, hf, Option.getD_some] at heq
        by_cases ht : total > 0
        · rw [if_pos ht] at heq
          obtain ⟨h1, h2, h3⟩ := ih (d + c) _ st2 d2 b rfl
            (by simpa using chain_le_snoc2 hch (Nat.le_add_right d c)) heq
          exact ⟨h1, le_trans (Nat.le_add_right d c) h2, h3⟩
        · rw [if_neg ht] at heq
          obtain ⟨h1, h2, h3⟩ := ih (d + c) _ st2 d2 b rfl
            (by simpa using chain_le_replace hch (Nat.le_add_right d c)) heq
          exact ⟨h1, le_trans (Nat.le_add_right d c) h2, h3⟩

/-! ## Helper lemmas: attempts and the retry loop -/

@[simp] lemma attOut_st_done (st : St) : (AttOut.done st).st = st := rfl

@[simp] lemma attOut_st_fail (st : St) : (AttOut.fail st).st = st := rfl

@[simp] lemma attOut_st_transient (st : St) (d : Nat) : (AttOut.transient st d).st = st := rfl

/-- The chunk loop only appends events, and never GETs or sleeps. -/
lemma streamChunks_events_suffix (cancel : Nat → Bool) (total : Nat) (ch : List Nat) :
    ∀ (d : Nat) (st st2 : St) (d2 : Nat) (b : Bool),
    streamChunks cancel total ch d st = (st2, d2, b) →
    ∃ ev2, st2.events = st.events ++ ev2 ∧ sleeps ev2 = [] ∧ getRanges ev2 = [] := by
  induction ch with
  | nil =>
    intro d st st2 d2 b heq
    rw [streamChunks] at heq
    cases heq
    exact ⟨[], by simp, rfl, rfl⟩
  | cons c rest ih =>
    intro d st st2 d2 b heq
    rw [streamChunks] at heq
    by_cases hcan : cancel st.step
    · rw [if_pos hcan] at heq
      cases heq
      exact ⟨[Event.statusMsg "Cancelled"], by simp [St.emit], rfl, rfl⟩
    · rw [if_neg hcan] at heq
      by_cases hc0 : c = 0
      · rw [if_pos hc0] at heq
        obtain ⟨ev2, h1, h2, h3⟩ := ih d { st with step := st.step + 1 } st2 d2 b heq
        exact ⟨ev2, h1, h2, h3⟩
      · rw [if_neg hc0] at heq
        simp only [St.emit] at heq
        by_cases ht : total > 0
        · rw [if_pos ht] at heq
          obtain ⟨ev2, h1, h2, h3⟩ := ih (d + c) _ st2 d2 b heq
          refine ⟨Event.progress (((d + c : Nat) : ℚ) / (total : ℚ) * 100) (d + c) total :: ev2,
            ?_, ?_, ?_⟩
          · rw [h1]; simp
          · simpa using h2
          · simpa using h3
        · rw [if_neg ht] at heq
          obtain ⟨ev2, h1, h2, h3⟩ := ih (d + c)
            ⟨some (st.fs.getD 0 + c), st.events, st.getIdx, st.step + 1⟩ st2 d2 b heq
          exact ⟨ev2, h1, h2, h3⟩

/-- One attempt appends events starting with its own GET record, never
sleeps, and records at most one further (range-free fallback) GET. -/
lemma runAttempt_events_suffix (env : Env) (d : Nat) (range : Option Nat) (total : Nat)
    (st : St) :
    ∃ ev2, (runAttempt env d range total st).st.events = st.events ++ Event.getReq range :: ev2 ∧
      sleeps ev2 = [] ∧ (getRanges ev2 = [] ∨ getRanges ev2 = [none]) := by
  rw [runAttempt]
  rcases hsv : env.server st.getIdx range with _ | msg | ⟨status, chunks, clean⟩
  all_goals simp only [issueGet, hsv]
  · exact ⟨[], by simp, rfl, Or.inl rfl⟩
  · exact ⟨[Event.statusMsg ("Error: " ++ msg.take 30)], by simp [St.emit], rfl, Or.inl rfl⟩
  · by_cases hfb : d > 0 ∧ status ≠ 206
    · rw [if_pos hfb]
      rcases hsv2 : env.server (st.getIdx + 1) none with _ | msg2 | ⟨s2, ch2, cl2⟩
      all_goals simp only [issueGet, hsv2]
      · exact ⟨[Event.getReq none], by simp, rfl, Or.inr rfl⟩
      · exact ⟨[Event.getReq none, Event.statusMsg ("Error: " ++ msg2.take 30)],
          by simp [St.emit], rfl, Or.inr rfl⟩
      · rw [runBody]
        by_cases hok : s2 ≠ 200 ∧ s2 ≠ 206
        · rw [if_pos hok]
          exact ⟨[Event.getReq none, Event.statusMsg ("HTTP " ++ toString s2)],
            by simp [St.emit], rfl, Or.inr rfl⟩
        · rw [if_neg hok]
          dsimp only
          split
          · rename_i stS dS hstr
            obtain ⟨ev3, he3, hs3, hg3⟩ :=
              streamChunks_events_suffix env.cancel total ch2 _ _ _ _ _ hstr
            refine ⟨Event.getReq none :: ev3, ?_, by simpa using hs3, Or.inr (by simpa using hg3)⟩
            simp only [attOut_st_fail]
            rw [he3]
            simp
          · rename_i stS dS hstr
            obtain ⟨ev3, he3, hs3, hg3⟩ :=
              streamChunks_events_suffix env.cancel total ch2 _ _ _ _ _ hstr
            by_cases hcl : cl2 = true
            · rw [if_pos hcl]
              refine ⟨Event.getReq none :: (ev3 ++ [Event.statusMsg "Done!"]), ?_, ?_, ?_⟩
              · simp only [attOut_st_done, St.emit]
                rw [he3]
                simp
              · simp [hs3]
              · right; simp [hg3]
            · rw [if_neg hcl]
              refine ⟨Event.getReq none :: ev3, ?_, by simpa using hs3, Or.inr (by simpa using hg3)⟩
              simp only [attOut_st_transient]
              rw [he3]
              simp
    · rw [if_neg hfb]
      rw [runBody]
      by_cases hok : status ≠ 200 ∧ status ≠ 206
      · rw [if_pos hok]
        exact ⟨[Event.statusMsg ("HTTP " ++ toString status)], by simp [St.emit], rfl, Or.inl rfl⟩
      · rw [if_neg hok]
        dsimp only
        split
        · rename_i stS dS hstr
          obtain ⟨ev3, he3, hs3, hg3⟩ :=
            streamChunks_events_suffix env.cancel total chunks _ _ _ _ _ hstr
          refine ⟨ev3, ?_, hs3, Or.inl hg3⟩
          simp only [attOut_st_fail]
          rw [he3]
          simp
        · rename_i stS dS hstr
          obtain ⟨ev3, he3, hs3, hg3⟩ :=
            streamChunks_events_suffix env.cancel total chunks _ _ _ _ _ hstr
          by_cases hcl : clean = true
          · rw [if_pos hcl]
            refine ⟨ev3 ++ [Event.statusMsg "Done!"], ?_, by simp [hs3], Or.inl (by simp [hg3])⟩
            simp only [attOut_st_done, St.emit]
            rw [he3]
            simp
          · rw [if_neg hcl]
            refine ⟨ev3, ?_, hs3, Or.inl hg3⟩
            simp only [attOut_st_transient]
            rw [he3]
            simp

lemma retryLoop_zero (env : Env) (total rc d : Nat) (range : Option Nat) (st : St) :
    retryLoop env total 0 rc d range st = (false, st) := rfl

lemma retryLoop_succ_done (env : Env) (total fuel rc d : Nat) (range : Option Nat)
    (st st2 : St) (h : runAttempt env d range total st = .done st2) :
    retryLoop env total (fuel + 1) rc d range st = (true, st2) := by
  rw [retryLoop, h]

lemma retryLoop_succ_fail (env : Env) (total fuel rc d : Nat) (range : Option Nat)
    (st st2 : St) (h : runAttempt env d range total st = .fail st2) :
    retryLoop env total (fuel + 1) rc d range st = (false, st2) := by
  rw [retryLoop, h]

lemma retryLoop_succ_transient_some (env : Env) (total fuel rc d : Nat) (range : Option Nat)
    (st st2 : St) (d2 n : Nat)
    (h : runAttempt env d range total st = .transient st2 d2)
    (hrc : rc + 1 < 3) (hfs : st2.fs = some n) :
    retryLoop env total (fuel + 1) rc d range st =
      retryLoop env total fuel (rc + 1) n (some n)
        ((st2.emit (.statusMsg ("Network error, retry " ++ toString (rc + 1) ++
          "/3..."))).emit (.sleep 2)) := by
  rw [retryLoop, h]
  dsimp only
  rw [if_pos hrc]
  simp [St.emit, hfs]

lemma retryLoop_succ_transient_none (env : Env) (total fuel rc d : Nat) (range : Option Nat)
    (st st2 : St) (d2 : Nat)
    (h : runAttempt env d range total st = .transient st2 d2)
    (hrc : rc + 1 < 3) (hfs : st2.fs = none) :
    retryLoop env total (fuel + 1) rc d range st =
      retryLoop env total fuel (rc + 1) d2 range
        ((st2.emit (.statusMsg ("Network error, retry " ++ toString (rc + 1) ++
          "/3..."))).emit (.sleep 2)) := by
  rw [retryLoop, h]
  dsimp only
  rw [if_pos hrc]
  simp [St.emit, hfs]

lemma retryLoop_succ_transient_exhaust (env : Env) (total fuel rc d : Nat) (range : Option Nat)
    (st st2 : St) (d2 : Nat)
    (h : runAttempt env d range total st = .transient st2 d2)
    (hrc : ¬ rc + 1 < 3) :
    retryLoop env total (fuel + 1) rc d range st =
      (false, st2.emit (.statusMsg "Network failed")) := by
  rw [retryLoop, h]
  dsimp only
  rw [if_neg hrc]

/-- The retry loop only ever appends to the event trace. -/
lemma retryLoop_events_suffix (env : Env) (total : Nat) :
    ∀ (fuel rc d : Nat) (range : Option Nat) (st : St),
    ∃ ev2, (retryLoop env total fuel rc d range st).2.events = st.events ++ ev2 := by
  intro fuel
  induction fuel with
  | zero =>
    intro rc d range st
    exact ⟨[], by simp [retryLoop_zero]⟩
  | succ fuel ih =>
    intro rc d range st
    obtain ⟨ev2, he2, hs2, hg2⟩ := runAttempt_events_suffix env d range total st
    rcases hA : runAttempt env d range total st with ⟨st2⟩ | ⟨st2⟩ | ⟨st2, d2⟩
    · rw [retryLoop_succ_done env total fuel rc d range st st2 hA]
      rw [hA] at he2
      exact ⟨Event.getReq range :: ev2, by simpa using he2⟩
    · rw [retryLoop_succ_fail env total fuel rc d range st st2 hA]
      rw [hA] at he2
      exact ⟨Event.getReq range :: ev2, by simpa using he2⟩
    · rw [hA] at he2
      simp only [attOut_st_transient] at he2
      by_cases hrc : rc + 1 < 3
      · rcases hfs : st2.fs with _ | n
        · rw [retryLoop_succ_transient_none env total fuel rc d range st st2 d2 hA hrc hfs]
          obtain ⟨ev3, he3⟩ := ih (rc + 1) d2 range _
          refine ⟨Event.getReq range :: ev2 ++
            ([Event.statusMsg ("Network error, retry " ++ toString (rc + 1) ++ "/3..."),
              Event.sleep 2] ++ ev3), ?_⟩
          rw [he3]
          simp [St.emit, he2]
        · rw [retryLoop_succ_transient_some env total fuel rc d range st st2 d2 n hA hrc hfs]
          obtain ⟨ev3, he3⟩ := ih (rc + 1) n (some n) _
          refine ⟨Event.getReq range :: ev2 ++
            ([Event.statusMsg ("Network error, retry " ++ toString (rc + 1) ++ "/3..."),
              Event.sleep 2] ++ ev3), ?_⟩
          rw [he3]
          simp [St.emit, he2]
      · rw [retryLoop_succ_transient_exhaust env total fuel rc d range st st2 d2 hA hrc]
        exact ⟨Event.getReq range :: ev2 ++ [Event.statusMsg "Network failed"],
          by simp [St.emit, he2]⟩

/-- When the retry loop runs at all, its first new GET carries the Range
header it was entered with. -/
lemma retryLoop_getRanges_head (env : Env) (total fuel rc d : Nat) (range : Option Nat)
    (st : St) :
    ∃ l, getRanges (retryLoop env total (fuel + 1) rc d range st).2.events =
      getRanges st.events ++ range :: l := by
  obtain ⟨ev2, he2, hs2, hg2⟩ := runAttempt_events_suffix env d range total st
  rcases hA : runAttempt env d range total st with ⟨st2⟩ | ⟨st2⟩ | ⟨st2, d2⟩
  · rw [retryLoop_succ_done env total fuel rc d range st st2 hA]
    rw [hA] at he2
    simp only [attOut_st_done] at he2
    exact ⟨getRanges ev2, by simp [he2]⟩
  · rw [retryLoop_succ_fail env total fuel rc d range st st2 hA]
    rw [hA] at he2
    simp only [attOut_st_fail] at he2
    exact ⟨getRanges ev2, by simp [he2]⟩
  · rw [hA] at he2
    simp only [attOut_st_transient] at he2
    by_cases hrc : rc + 1 < 3
    · rcases hfs : st2.fs with _ | n
      · rw [retryLoop_succ_transient_none env total fuel rc d range st st2 d2 hA hrc hfs]
        obtain ⟨ev3, he3⟩ := retryLoop_events_suffix env total fuel (rc + 1) d2 range _
        exact ⟨getRanges ev2 ++ getRanges ev3, by rw [he3]; simp [St.emit, he2]⟩
      · rw [retryLoop_succ_transient_some env total fuel rc d range st st2 d2 n hA hrc hfs]
        obtain ⟨ev3, he3⟩ := retryLoop_events_suffix env total fuel (rc + 1) n (some n) _
        exact ⟨getRanges ev2 ++ getRanges ev3, by rw [he3]; simp [St.emit, he2]⟩
    · rw [retryLoop_succ_transient_exhaust env total fuel rc d range st st2 d2 hA hrc]
      exact ⟨getRanges ev2, by simp [St.emit, he2]⟩

/-- Each pass of the retry loop adds at most one back-off sleep, and the
count of remaining passes is bounded by `3 - retry_count`, so: at most
`2 - rc` further sleeps. -/
lemma retryLoop_sleeps_le (env : Env) (total : Nat) :
    ∀ (fuel rc d : Nat) (range : Option Nat) (st : St),
    (sleeps (retryLoop env total fuel rc d range st).2.events).length ≤
      (sleeps st.events).length + (2 - rc) := by
  intro fuel
  induction fuel with
  | zero =>
    intro rc d range st
    simp [retryLoop_zero]
  | succ fuel ih =>
    intro rc d range st
    obtain ⟨ev2, he2, hs2, hg2⟩ := runAttempt_events_suffix env d range total st
    rcases hA : runAttempt env d range total st with ⟨st2⟩ | ⟨st2⟩ | ⟨st2, d2⟩
    · rw [retryLoop_succ_done env total fuel rc d range st st2 hA]
      rw [hA] at he2
      simp only [attOut_st_done] at he2
      simp [he2, hs2]
    · rw [retryLoop_succ_fail env total fuel rc d range st st2 hA]
      rw [hA] at he2
      simp only [attOut_st_fail] at he2
      simp [he2, hs2]
    · rw [hA] at he2
      simp only [attOut_st_transient] at he2
      by_cases hrc : rc + 1 < 3
      · rcases hfs : st2.fs with _ | n
        · rw [retryLoop_succ_transient_none env total fuel rc d range st st2 d2 hA hrc hfs]
          have hb := ih (rc + 1)  d2 range
            ((st2.emit (.statusMsg ("Network error, retry " ++ toString (rc + 1) ++
              "/3..."))).emit (.sleep 2))
          simp [St.emit, he2, hs2] at hb ⊢
          omega
        · rw [retryLoop_succ_transient_some env total fuel rc d range st st2 d2 n hA hrc hfs]
          have hb := ih (rc + 1) n (some n)
            ((st2.emit (.statusMsg ("Network error, retry " ++ toString (rc + 1) ++
              "/3..."))).emit (.sleep 2))
          simp [St.emit, he2, hs2] at hb ⊢
          omega
      · rw [retryLoop_succ_transient_exhaust env total fuel rc d range st st2 d2 hA hrc]
        simp [St.emit, he2, hs2]

/-- No run of `download_file` ever sleeps more than twice: the retry loop is
bounded at 3 total attempts. -/
lemma download_file_sleeps_le (env : Env) :
    (sleeps (download_file env).2.events).length ≤ 2 := by
  rw [download_file]
  by_cases hmk : env.mkdirOk = false
  · rw [if_pos hmk]
    simp [St.emit]
  · rw [if_neg hmk]
    dsimp only
    by_cases hdone : env.initFile.getD 0 > 0 ∧ get_file_size env.head > 0 ∧
        env.initFile.getD 0 = get_file_size env.head
    · rw [if_pos hdone]
      simp [St.emit]
    · rw [if_neg hdone]
      by_cases hd : env.initFile.getD 0 > 0
      · rw [if_pos hd]
        have := retryLoop_sleeps_le env (get_file_size env.head) 3 0 (env.initFile.getD 0)
          (some (env.initFile.getD 0))
          ((⟨env.initFile, [], 0, 0⟩ : St).emit (.statusMsg "Resuming..."))
        simpa [St.emit] using this
      · rw [if_neg hd]
        have := retryLoop_sleeps_le env (get_file_size env.head) 3 0 (env.initFile.getD 0)
          none ⟨env.initFile, [], 0, 0⟩
        simpa using this

/-! ## Helper lemmas: progress monotonicity through the whole engine -/

/-- A server that supports resume: any actual response to a GET carrying a
Range header has partial-content status 206 (failures are unconstrained). -/
def rangeHonored : GetResult → Prop
  | .resp status _ _ => status = 206
  | _ => True

/-- Invariant transfer through one attempt, assuming ranged GETs are
honored (so the full-GET fallback that resets `downloaded_size` to 0 never
fires).  Entry invariant: `downloaded_size` equals the on-disk size, the
Range header (if the attempt has one) starts at it, and all progress bytes
reported so far, extended by `downloaded_size`, are non-decreasing. -/
lemma runAttempt_chain (env : Env) (total : Nat)
    (hR : ∀ i n, rangeHonored (env.server i (some n)))
    (d : Nat) (range : Option Nat) (st : St)
    (hfs : st.fs.getD 0 = d) (hfn : st.fs = none → d = 0)
    (hrange : 0 < d → range = some d)
    (hch : List.Chain' (fun x y : Nat => x ≤ y) (progressBytes st.events ++ [d])) :
    (∀ st2, runAttempt env d range total st = .done st2 →
       List.Chain' (fun x y : Nat => x ≤ y) (progressBytes st2.events)) ∧
    (∀ st2, runAttempt env d range total st = .fail st2 →
       List.Chain' (fun x y : Nat => x ≤ y) (progressBytes st2.events)) ∧
    (∀ st2 d2, runAttempt env d range total st = .transient st2 d2 →
       st2.fs.getD 0 = d2 ∧ (st2.fs = none → d2 = 0) ∧
       List.Chain' (fun x y : Nat => x ≤ y) (progressBytes st2.events ++ [d2])) := by
  rw [runAttempt]
  rcases hsv : env.server st.getIdx range with _ | msg | ⟨status, chunks, clean⟩
  all_goals simp only [issueGet, hsv]
  · refine ⟨?_, ?_, ?_⟩
    · intro st2 h; cases h
    · intro st2 h; cases h
    · intro st2 d2 h
      cases h
      exact ⟨hfs, hfn, by simpa using hch⟩
  · refine ⟨?_, ?_, ?_⟩
    · intro st2 h; cases h
    · intro st2 h
      cases h
      simpa [St.emit] using chain_le_init hch
    · intro st2 d2 h; cases h
  · have hnfb : ¬ (d > 0 ∧ status ≠ 206) := by
      rintro ⟨hd, hne⟩
      have hh := hR st.getIdx d
      rw [hrange hd] at hsv
      rw [hsv] at hh
      exact hne hh
    rw [if_neg hnfb, runBody]
    by_cases hok : status ≠ 200 ∧ status ≠ 206
    · rw [if_pos hok]
      refine ⟨?_, ?_, ?_⟩
      · intro st2 h; cases h
      · intro st2 h
        cases h
        simpa [St.emit] using chain_le_init hch
      · intro st2 d2 h; cases h
    · rw [if_neg hok]
      dsimp only
      have hfsB : (if d > 0 then some (st.fs.getD 0) else some 0) = some d := by
        by_cases h0 : d > 0
        · simp [h0, hfs]
        · simp [h0]
          omega
      split
      · rename_i stS dS hstr
        obtain ⟨h1, h2, h3⟩ := streamChunks_chain env.cancel total chunks d _ stS dS true
          (by simpa using hfsB) (by simpa using hch) hstr
        refine ⟨?_, ?_, ?_⟩
        · intro st2 h; cases h
        · intro st2 h
          cases h
          exact chain_le_init h3
        · intro st2 d2 h; cases h
      · rename_i stS dS hstr
        obtain ⟨h1, h2, h3⟩ := streamChunks_chain env.cancel total chunks d _ stS dS false
          (by simpa using hfsB) (by simpa using hch) hstr
        by_cases hcl : clean = true
        · rw [if_pos hcl]
          refine ⟨?_, ?_, ?_⟩
          · intro st2 h
            cases h
            simpa [St.emit] using chain_le_init h3
          · intro st2 h; cases h
          · intro st2 d2 h; cases h
        · rw [if_neg hcl]
          refine ⟨?_, ?_, ?_⟩
          · intro st2 h; cases h
          · intro st2 h; cases h
          · intro st2 d2 h
            cases h
            exact ⟨by simp [h1], by simp [h1], h3⟩

/-- The progress byte counts a whole retry loop reports are non-decreasing
when the server honors range requests. -/
lemma retryLoop_chain (env : Env) (total : Nat)
    (hR : ∀ i n, rangeHonored (env.server i (some n))) :
    ∀ (fuel rc d : Nat) (range : Option Nat) (st : St),
    st.fs.getD 0 = d → (st.fs = none → d = 0) → (0 < d → range = some d) →
    List.Chain' (fun x y : Nat => x ≤ y) (progressBytes st.events ++ [d]) →
    List.Chain' (fun x y : Nat => x ≤ y)
      (progressBytes (retryLoop env total fuel rc d range st).2.events) := by
  intro fuel
  induction fuel with
  | zero =>
    intro rc d range st hfs hfn hrange hch
    rw [retryLoop_zero]
    exact chain_le_init hch
  | succ fuel ih =>
    intro rc d range st hfs hfn hrange hch
    obtain ⟨hdone, hfail, htrans⟩ := runAttempt_chain env total hR d range st hfs hfn hrange hch
    rcases hA : runAttempt env d range total st with ⟨st2⟩ | ⟨st2⟩ | ⟨st2, d2⟩
    · rw [retryLoop_succ_done env total fuel rc d range st st2 hA]
      exact hdone st2 hA
    · rw [retryLoop_succ_fail env total fuel rc d range st st2 hA]
      exact hfail st2 hA
    · obtain ⟨h1, h2, h3⟩ := htrans st2 d2 hA
      by_cases hrc : rc + 1 < 3
      · rcases hfs2 : st2.fs with _ | n
        · rw [retryLoop_succ_transient_none env total fuel rc d range st st2 d2 hA hrc hfs2]
          refine ih (rc + 1) d2 range _ ?_ ?_ ?_ ?_
          · simp [St.emit, hfs2, (h2 hfs2).symm]
          · intro _
            exact h2 hfs2
          · intro hd2
            rw [h2 hfs2] at hd2
            omega
          · simpa [St.emit] using h3
        · rw [retryLoop_succ_transient_some env total fuel rc d range st st2 d2 n hA hrc hfs2]
          have hn : n = d2 := by
            rw [hfs2] at h1
            simpa using h1
          refine ih (rc + 1) n (some n) _ ?_ ?_ ?_ ?_
          · simp [St.emit, hfs2]
          · intro hcon
            simp [St.emit, hfs2] at hcon
          · intro _
            rfl
          · rw [hn]
            simpa [St.emit] using h3
      · rw [retryLoop_succ_transient_exhaust env total fuel rc d range st st2 d2 hA hrc]
        simpa [St.emit] using chain_le_init h3

/-- Progress callbacks of a whole `download_file` run are monotone when the
server honors range requests. -/
lemma download_file_chain (env : Env)
    (hR : ∀ i n, rangeHonored (env.server i (some n))) :
    List.Chain' (fun x y : Nat => x ≤ y) (progressBytes (download_file env).2.events) := by
  rw [download_file]
  by_cases hmk : env.mkdirOk = false
  · rw [if_pos hmk]
    simp [St.emit]
  · rw [if_neg hmk]
    dsimp only
    by_cases hdone : env.initFile.getD 0 > 0 ∧ get_file_size env.head > 0 ∧
        env.initFile.getD 0 = get_file_size env.head
    · rw [if_pos hdone]
      simp [St.emit]
    · rw [if_neg hdone]
      by_cases hd : env.initFile.getD 0 > 0
      · rw [if_pos hd]
        refine retryLoop_chain env _ hR 3 0 _ _ _ rfl ?_ (fun _ => rfl) ?_
        · intro hnone
          have hn2 : env.initFile = none := by simpa [St.emit] using hnone
          simp [hn2]
        · simp [St.emit]
      · rw [if_neg hd]
        refine retryLoop_chain env _ hR 3 0 _ _ _ rfl ?_ ?_ ?_
        · intro hnone
          have hn2 : env.initFile = none := by simpa using hnone
          simp [hn2]
        · intro hcon
          omega
        · simp

/-! ## Helper lemmas: concrete attempt outcomes -/

/-- An attempt whose GET raises a transient exception at request time. -/
lemma runAttempt_netFail (env : Env) (d : Nat) (range : Option Nat) (total : Nat) (st : St)
    (hs : env.server st.getIdx range = .netFail) :
    runAttempt env d range total st =
      .transient { st with getIdx := st.getIdx + 1,
                           events := st.events ++ [Event.getReq range] } d := by
  rw [runAttempt]
  simp only [issueGet, hs]

/-- An attempt that obtains an acceptable response without triggering the
full-GET fallback, streams it to the end with no cancellation, and either
finishes cleanly or dies of a mid-stream transient error. -/
lemma runAttempt_resp (env : Env) (hc : ∀ n, env.cancel n = false)
    (d : Nat) (range : Option Nat) (total : Nat) (st : St)
    (status : Nat) (ch : List Nat) (clean : Bool)
    (hs : env.server st.getIdx range = .resp status ch clean)
    (hok : status = 200 ∨ status = 206)
    (hnfb : ¬ (d > 0 ∧ status ≠ 206))
    (hfs : st.fs.getD 0 = d) :
    ∃ evNew, progressOnly evNew ∧
      runAttempt env d range total st =
        (if clean then
          AttOut.done ⟨some (d + ch.sum),
            ((st.events ++ [Event.getReq range]) ++ evNew) ++ [Event.statusMsg "Done!"],
            st.getIdx + 1, st.step + ch.length⟩
        else
          AttOut.transient ⟨some (d + ch.sum),
            (st.events ++ [Event.getReq range]) ++ evNew,
            st.getIdx + 1, st.step + ch.length⟩ (d + ch.sum)) := by
  rw [runAttempt]
  simp only [issueGet, hs]
  rw [if_neg hnfb, runBody]
  rw [if_neg (by omega : ¬ (status ≠ 200 ∧ status ≠ 206))]
  dsimp only
  have hfsB : (if d > 0 then some (st.fs.getD 0) else some 0) = some d := by
    by_cases h0 : d > 0
    · simp [h0, hfs]
    · simp [h0]
      omega
  obtain ⟨evNew, hpo, heq⟩ := streamChunks_nocancel env.cancel hc total ch d d
    { fs := if d > 0 then some (st.fs.getD 0) else some 0,
      events := st.events ++ [Event.getReq range], getIdx := st.getIdx + 1, step := st.step }
    (by simpa using hfsB)
  refine ⟨evNew, hpo, ?_⟩
  rw [heq]
  cases clean
  · simp [St.emit]
  · simp [St.emit]

/-- An attempt entered with a Range header that the server answers with a
plain 200: the fallback discards the ranged response, resets
`downloaded_size` to 0, reissues a full GET, truncates the file and streams
the second body to a clean end. -/
lemma runAttempt_fallback (env : Env) (hc : ∀ n, env.cancel n = false)
    (d : Nat) (range : Option Nat) (total : Nat) (st : St)
    (status1 : Nat) (ch1 : List Nat) (cl1 : Bool) (ch2 : List Nat)
    (hs1 : env.server st.getIdx range = .resp status1 ch1 cl1)
    (hd : d > 0) (hst : status1 ≠ 206)
    (hs2 : env.server (st.getIdx + 1) none = .resp 200 ch2 true) :
    ∃ evNew, progressOnly evNew ∧
      runAttempt env d range total st =
        .done ⟨some ch2.sum,
          ((st.events ++ [Event.getReq range, Event.getReq none]) ++ evNew) ++
            [Event.statusMsg "Done!"],
          st.getIdx + 2, st.step + ch2.length⟩ := by
  rw [runAttempt]
  simp only [issueGet, hs1]
  rw [if_pos ⟨hd, hst⟩]
  simp only [issueGet, hs2]
  rw [runBody]
  rw [if_neg (by omega : ¬ ((200 : Nat) ≠ 200 ∧ (200 : Nat) ≠ 206))]
  dsimp only
  obtain ⟨evNew, hpo, heq⟩ := streamChunks_nocancel env.cancel hc total ch2 0 0
    { fs := if 0 > 0 then some (st.fs.getD 0) else some 0,
      events := (st.events ++ [Event.getReq range]) ++ [Event.getReq none],
      getIdx := st.getIdx + 1 + 1, step := st.step }
    (by simp)
  refine ⟨evNew, hpo, ?_⟩
  rw [heq]
  simp [St.emit]

/-- Requesting cancellation unblocks the pause wait: if the cancel flag is
true from poll tick `k` on, the wait loop of lines 189-190 exits within
`k - t + 1` polls from tick `t`, whatever the pause flag does. -/
lemma pauseWait_unblocks (pause : Nat → Bool) (k : Nat) :
    ∀ (fuel t : Nat), k - t < fuel →
    (pauseWait pause (fun n => decide (k ≤ n)) t fuel).isSome = true := by
  intro fuel
  induction fuel with
  | zero =>
    intro t h
    omega
  | succ fuel ih =>
    intro t h
    rw [pauseWait]
    by_cases hcond : (pause t && !decide (k ≤ t)) = true
    · rw [if_pos hcond]
      have hkt : ¬ (k ≤ t) := by
        by_contra hk
        simp [hk] at hcond
      exact ih (t + 1) (by omega)
    · rw [if_neg hcond]
      rfl

/-! ## Helper lemmas: batch orchestrator -/

/-- With a cancellation predicate that turns false from (1-based) file
index `j` on, the batch loop processes exactly the files before `j`. -/
lemma batchLoop_take (env : BatchEnv) (j : Nat)
    (hj : ∀ i, env.isDownloading i = decide (i < j)) :
    ∀ (files : List (String × String × Nat)) (idx : Nat),
    batchLoop env idx files = batchLoop env idx (files.take (j - idx)) := by
  intro files
  induction files with
  | nil => intro idx; simp
  | cons f rest ih =>
    intro idx
    rcases f with ⟨path, url, size⟩
    by_cases hij : idx < j
    · have htake : ((path, url, size) :: rest).take (j - idx) =
          (path, url, size) :: rest.take (j - (idx + 1)) := by
        have : j - idx = (j - (idx + 1)) + 1 := by omega
        rw [this, List.take_succ_cons]
      rw [htake, batchLoop, batchLoop, hj idx]
      rw [if_neg (by simp [hij]), if_neg (by simp [hij])]
      rw [ih (idx + 1)]
    · rw [batchLoop, hj idx, if_pos (by simp [hij])]
      have htake : j - idx = 0 := by omega
      rw [htake, List.take_zero, batchLoop]

lemma batchStep_manifestFree (env : BatchEnv) (idx : Nat) (path url : String) (size : Nat) :
    manifestFree (batchStep env idx path url size) = true := by
  rw [batchStep]
  dsimp only
  split_ifs <;> rfl

lemma batchLoop_manifestFree (env : BatchEnv) :
    ∀ (files : List (String × String × Nat)) (idx : Nat),
    manifestFree (batchLoop env idx files) = true := by
  intro files
  induction files with
  | nil => intro idx; simp [batchLoop, manifestFree]
  | cons f rest ih =>
    intro idx
    rcases f with ⟨path, url, size⟩
    rw [batchLoop]
    by_cases hdl : env.isDownloading idx = false
    · rw [if_pos hdl]
      simp [manifestFree]
    · rw [if_neg hdl]
      have h1 := batchStep_manifestFree env idx path url size
      have h2 := ih (idx + 1)
      simp only [manifestFree, List.all_append] at h1 h2 ⊢
      simp [h1, h2]

/-! ## Claims -/

/-- Claim C8: the size probe (`get_file_size`) returns the declared content
length on a success (200) response and the sentinel 0 on any failure —
network exception, non-success status, or missing `Content-Length` header.
Being a total Lean function over all `HeadResult`s, it never propagates an
exception to its caller; 0 is a silent, valid "unknown size" outcome. -/
theorem claim_C8 :
    get_file_size HeadResult.netFail = 0 ∧
    (∀ status cl, status ≠ 200 → get_file_size (HeadResult.resp status cl) = 0) ∧
    (∀ status, get_file_size (HeadResult.resp status none) = 0) ∧
    (∀ n, get_file_size (HeadResult.resp 200 (some n)) = n) := by
  refine ⟨rfl, ?_, ?_, fun n => rfl⟩
  · intro status cl hs
    simp [get_file_size, hs]
  · intro status
    simp [get_file_size]

/-- Witness for C8 at concrete probes: a 404 with a declared length still
yields 0, and a 200 with `Content-Length: 7` yields 7. -/
theorem claim_C8_witness :
    get_file_size (HeadResult.resp 404 (some 7)) = 0 ∧
    get_file_size (HeadResult.resp 200 (some 7)) = 7 :=
  ⟨claim_C8.2.1 404 (some 7) (by decide), claim_C8.2.2.2 7⟩

/-- Claim C5: any URL one of the directory ("/tree/") patterns matches is
classified by `parse_hf_url` as a directory, never as a single file: the
tree matchers run before the file matchers and the first match wins, so the
result is the directory tuple `(none, none, true, repo_info)` no matter
what the file patterns would say about the same URL. -/
theorem claim_C5 (url : String) (q : String × String × String × Option String)
    (h : treeMatch (stripQuery url) = some q) :
    parse_hf_url url =
      (none, none, true, some ⟨q.1, q.2.1, q.2.2.1, (q.2.2.2).getD ""⟩) := by
  obtain ⟨a, b, c, sp⟩ := q
  simp only [parse_hf_url, h]

def urlC5 : String := "https://huggingface.co/u/m/tree/main/hf-mirror.com/a/b/resolve/br/f"

/-- Witness for C5 on a URL that *both* a tree pattern and a file pattern
match: the directory classification wins. -/
theorem claim_C5_witness :
    (fileMatch (stripQuery urlC5)).isSome = true ∧
    parse_hf_url urlC5 =
      (none, none, true, some ⟨"u", "m", "main", "hf-mirror.com/a/b/resolve/br/f"⟩) :=
  ⟨by decide,
   claim_C5 urlC5 ("u", "m", "main", some "hf-mirror.com/a/b/resolve/br/f") (by decide)⟩

/-- Claim C10: in the batch loop a file is classified already-complete
(logged "(done)" and skipped with no transfer) iff its existing local size
is at least the declared size and the declared size is strictly positive.
Consequently an entry with declared size 0 always gets a transfer attempt,
and a local file strictly larger than the declared size is skipped, not
re-downloaded. -/
theorem claim_C10 (env : BatchEnv) (idx : Nat) (path url : String) (size : Nat)
    (hmk : env.mkdirOkFor path = true) :
    (batchStep env idx path url size = [BatchEv.logDone idx path] ↔
       size ≤ (env.localSize path).getD 0 ∧ 0 < size) ∧
    (size = 0 → BatchEv.transfer idx path url ∈ batchStep env idx path url size) ∧
    (size < (env.localSize path).getD 0 ∧ 0 < size →
       batchStep env idx path url size = [BatchEv.logDone idx path]) := by
  rw [batchStep, if_neg (by simp [hmk])]
  refine ⟨⟨?_, ?_⟩, ?_, ?_⟩
  · intro heq
    by_cases h1 : 0 < (env.localSize path).getD 0 ∧ (env.localSize path).getD 0 < size
    · rw [if_pos h1] at heq
      simp at heq
    · rw [if_neg h1] at heq
      by_cases h2 : size ≤ (env.localSize path).getD 0 ∧ 0 < size
      · exact h2
      · rw [if_neg h2] at heq
        simp at heq
  · intro h2
    rw [if_neg (by omega), if_pos h2]
  · intro h0
    subst h0
    rw [if_neg (by omega), if_neg (by omega)]
    simp
  · intro h3
    rw [if_neg (by omega), if_pos (by omega)]

def benvC10 : BatchEnv :=
  { isDownloading := fun _ => true,
    localSize := fun p => if p = "w.bin" then some 9 else none,
    mkdirOkFor := fun _ => true }

/-- Witness for C10: a 9-byte local file against a declared size of 4 is
skipped, and a declared size of 0 still gets a transfer. -/
theorem claim_C10_witness :
    batchStep benvC10 1 "w.bin" "u" 4 = [BatchEv.logDone 1 "w.bin"] ∧
    BatchEv.transfer 1 "w.bin" "u" ∈ batchStep benvC10 1 "w.bin" "u" 0 :=
  ⟨(claim_C10 benvC10 1 "w.bin" "u" 4 rfl).2.2 (by decide),
   (claim_C10 benvC10 1 "w.bin" "u" 0 rfl).2.1 rfl⟩

/-- Claim C7, amended: the manifest machinery exists but is never invoked.
`save_download_state` records exactly `{files, save_dir, url}` when a state
file path is configured and is a silent no-op when it is not (it is `None`
unless the never-called `init_state_file` runs); the pending-classification
of `check_pending_downloads` selects exactly the entries whose local file
is absent or smaller than the declared size; and no batch run ever touches
the manifest — `_download_selected_files` emits no manifest event, and
nothing deletes the state file automatically. -/
theorem claim_C7 :
    (∀ (files : List (String × String × Nat)) (saveDir url : String),
       save_download_state none files saveDir url = none) ∧
    (∀ (sf : String) (files : List (String × String × Nat)) (saveDir url : String),
       save_download_state (some sf) files saveDir url = some ⟨files, saveDir, url⟩) ∧
    (∀ (localSize : String → Option Nat) (files : List (String × String × Nat))
       (p u : String) (s : Nat),
       (p, u, s) ∈ pendingOf localSize files ↔
         ((p, u, s) ∈ files ∧ match localSize p with
            | some e => e < s
            | none => True)) ∧
    (∀ (env : BatchEnv) (files : List (String × String × Nat)),
       manifestFree (download_selected_files env files) = true) := by
  refine ⟨fun _ _ _ => rfl, fun _ _ _ _ => rfl, ?_, ?_⟩
  · intro localSize files p u s
    rw [pendingOf, List.mem_filter]
    rcases hl : localSize p with _ | e
    · simp [hl]
    · simp [hl]
  · intro env files
    have h1 := batchLoop_manifestFree env files 1
    simp only [download_selected_files, manifestFree, List.all_append] at h1 ⊢
    simp [h1]

def benvC7 : BatchEnv :=
  { isDownloading := fun _ => true,
    localSize := fun _ => none,
    mkdirOkFor := fun _ => true }

/-- Counterexample to C7 as stated: beginning a concrete directory batch
writes no manifest — the batch trace contains no manifest event at all,
because `_download_selected_files` never calls `save_download_state`
(nothing in the source does, and `state_file` stays `None`). -/
theorem claim_C7_cex :
    download_selected_files benvC7 [("f.bin", "u", 4)] =
      [BatchEv.logFresh 1 "f.bin", BatchEv.transfer 1 "f.bin" "u", BatchEv.batchFinished] ∧
    (download_selected_files benvC7 [("f.bin", "u", 4)]).all
      (fun e => match e with
        | BatchEv.manifestSave _ _ _ => false
        | _ => true) = true := by
  constructor
  · rfl
  · rfl

/-- Claim C6: the batch orchestrator walks the file list strictly in listing
order, one file at a time, classifying each by comparing existing local
size with declared size: an already-complete file A is skipped with a
"(done)" line and no transfer, a partially-present file B gets a RESUME
line and a transfer (the engine resumes from the on-disk offset), an absent
file C gets a plain line and a fresh transfer; and the cancellation
predicate is read before every file — once it is false the whole remaining
batch is dropped (only the files before that index are processed). -/
theorem claim_C6 (env : BatchEnv) (pa pb pc ua ub uc : String) (sa sb sc eb : Nat)
    (hdl : ∀ i, env.isDownloading i = true)
    (hmk : ∀ p, env.mkdirOkFor p = true)
    (hA : env.localSize pa = some sa) (hsa : 0 < sa)
    (hB : env.localSize pb = some eb) (heb : 0 < eb) (hebs : eb < sb)
    (hC : env.localSize pc = none) :
    download_selected_files env [(pa, ua, sa), (pb, ub, sb), (pc, uc, sc)] =
      [BatchEv.logDone 1 pa,
       BatchEv.logResume 2 pb eb sb, BatchEv.transfer 2 pb ub,
       BatchEv.logFresh 3 pc, BatchEv.transfer 3 pc uc,
       BatchEv.batchFinished] ∧
    (∀ (env2 : BatchEnv) (files : List (String × String × Nat)) (j : Nat),
      (∀ i, env2.isDownloading i = decide (i < j)) →
      download_selected_files env2 files =
        batchLoop env2 1 (files.take (j - 1)) ++ [BatchEv.batchFinished]) := by
  constructor
  · have hstepA : batchStep env 1 pa ua sa = [BatchEv.logDone 1 pa] := by
      rw [batchStep, if_neg (by simp [hmk]), hA]
      dsimp only [Option.getD_some]
      rw [if_neg (by omega), if_pos (by omega)]
    have hstepB : batchStep env 2 pb ub sb =
        [BatchEv.logResume 2 pb eb sb, BatchEv.transfer 2 pb ub] := by
      rw [batchStep, if_neg (by simp [hmk]), hB]
      dsimp only [Option.getD_some]
      rw [if_pos ⟨heb, hebs⟩]
    have hstepC : batchStep env 3 pc uc sc =
        [BatchEv.logFresh 3 pc, BatchEv.transfer 3 pc uc] := by
      rw [batchStep, if_neg (by simp [hmk]), hC]
      dsimp only [Option.getD_none]
      rw [if_neg (by omega), if_neg (by omega)]
    rw [download_selected_files, batchLoop, if_neg (by simp [hdl]), batchLoop,
        if_neg (by simp [hdl]), batchLoop, if_neg (by simp [hdl]), batchLoop,
        hstepA, hstepB, hstepC]
    rfl
  · intro env2 files j hj
    rw [download_selected_files, batchLoop_take env2 j hj files 1]

def benvC6 : BatchEnv :=
  { isDownloading := fun _ => true,
    localSize := fun p => if p = "a" then some 5 else if p = "b" then some 3 else none,
    mkdirOkFor := fun _ => true }

/-- Witness for C6: file "a" (5 of 5 bytes present) is skipped, "b" (3 of 8)
is resumed, "c" (absent) is fetched fresh, in order. -/
theorem claim_C6_witness :
    download_selected_files benvC6 [("a", "ua", 5), ("b", "ub", 8), ("c", "uc", 4)] =
      [BatchEv.logDone 1 "a",
       BatchEv.logResume 2 "b" 3 8, BatchEv.transfer 2 "b" "ub",
       BatchEv.logFresh 3 "c", BatchEv.transfer 3 "c" "uc",
       BatchEv.batchFinished] :=
  (claim_C6 benvC6 "a" "b" "c" "ua" "ub" "uc" 5 8 4 3
    (fun _ => rfl) (fun _ => rfl) (by decide) (by decide) (by decide) (by decide)
    (by decide) (by decide)).1

/-- Claim C2: when the file already at the destination has exactly the probed
remote size (and that size is positive), `download_file` reports a
"File exists" status and 100% progress, returns true, and issues no GET at
all — and since it leaves the file untouched, a second call on the
resulting destination does exactly the same: idempotence with zero GETs
beyond the HEAD probes. -/
theorem claim_C2 (env : Env) (n : Nat)
    (hmk : env.mkdirOk = true) (hfile : env.initFile = some n)
    (hsize : get_file_size env.head = n) (hn : 0 < n) :
    download_file env =
      (true, ⟨some n, [Event.statusMsg "File exists", Event.progress 100 n n], 0, 0⟩) ∧
    getRanges (download_file env).2.events = [] ∧
    download_file { env with initFile := (download_file env).2.fs } =
      (true, ⟨some n, [Event.statusMsg "File exists", Event.progress 100 n n], 0, 0⟩) := by
  have h1 : download_file env =
      (true, ⟨some n, [Event.statusMsg "File exists", Event.progress 100 n n], 0, 0⟩) := by
    rw [download_file, if_neg (by simp [hmk])]
    dsimp only
    rw [hfile]
    dsimp only [Option.getD_some]
    rw [hsize, if_pos ⟨hn, hn, rfl⟩]
    simp [St.emit]
  refine ⟨h1, by rw [h1]; rfl, ?_⟩
  rw [h1]
  rw [download_file, if_neg (by simp [hmk])]
  dsimp only [Option.getD_some]
  rw [hsize, if_pos ⟨hn, hn, rfl⟩]
  simp [St.emit]

def envC2 : Env :=
  { server := fun _ _ => .netFail,
    head := .resp 200 (some 10),
    mkdirOk := true,
    initFile := some 10,
    cancel := fun _ => false }

/-- Witness for C2 at a concrete 10-byte destination matching the probed
size: both calls return true with the "File exists" trace and no GET. -/
theorem claim_C2_witness :
    download_file envC2 =
      (true, ⟨some 10, [Event.statusMsg "File exists", Event.progress 100 10 10], 0, 0⟩) ∧
    getRanges (download_file envC2).2.events = [] ∧
    download_file { envC2 with initFile := (download_file envC2).2.fs } =
      (true, ⟨some 10, [Event.statusMsg "File exists", Event.progress 100 10 10], 0, 0⟩) :=
  claim_C2 envC2 10 rfl rfl rfl (by decide)

/-- Claim C9: an existing local file strictly larger than the (positive)
probed total does not trigger the already-complete shortcut — that shortcut
requires exact size equality — so the engine reports "Resuming..." and its
first GET carries `Range: bytes=e-` from the oversized offset; and when the
server answers that ranged GET with a plain 200 (and the follow-up full GET
succeeds cleanly), the engine resets to 0, reissues a full GET, truncates
the file, and ends with exactly the fresh body on disk. -/
theorem claim_C9 (env : Env) (e : Nat)
    (hmk : env.mkdirOk = true) (hfile : env.initFile = some e)
    (hcan : ∀ n, env.cancel n = false)
    (hlt : get_file_size env.head < e) (hpos : 0 < get_file_size env.head) :
    (download_file env).2.events.head? = some (Event.statusMsg "Resuming...") ∧
    (∃ l, getRanges (download_file env).2.events = some e :: l) ∧
    (∀ ch ch2 : List Nat,
      env.server 0 (some e) = .resp 200 ch true →
      env.server 1 none = .resp 200 ch2 true →
      (download_file env).1 = true ∧
      getRanges (download_file env).2.events = [some e, none] ∧
      (download_file env).2.fs = some ch2.sum) := by
  have hshort : download_file env =
      retryLoop env (get_file_size env.head) 3 0 e (some e)
        ⟨some e, [Event.statusMsg "Resuming..."], 0, 0⟩ := by
    rw [download_file, if_neg (by simp [hmk])]
    dsimp only
    rw [hfile]
    dsimp only [Option.getD_some]
    rw [if_neg (by omega), if_pos (by omega)]
    rfl
  refine ⟨?_, ?_, ?_⟩
  · obtain ⟨ev2, he2⟩ := retryLoop_events_suffix env (get_file_size env.head) 3 0 e
      (some e) ⟨some e, [Event.statusMsg "Resuming..."], 0, 0⟩
    rw [hshort, he2]
    rfl
  · obtain ⟨l, hl⟩ := retryLoop_getRanges_head env (get_file_size env.head) 2 0 e
      (some e) ⟨some e, [Event.statusMsg "Resuming..."], 0, 0⟩
    refine ⟨l, ?_⟩
    rw [hshort, show (3 : Nat) = 2 + 1 from rfl, hl]
    rfl
  · intro ch ch2 hs0 hs1
    obtain ⟨evNew, hpo, hA⟩ := runAttempt_fallback env hcan e (some e)
      (get_file_size env.head) ⟨some e, [Event.statusMsg "Resuming..."], 0, 0⟩
      200 ch true ch2 hs0 (by omega) (by decide) hs1
    rw [hshort, show (3 : Nat) = 2 + 1 from rfl,
        retryLoop_succ_done env (get_file_size env.head) 2 0 e (some e) _ _ hA]
    refine ⟨rfl, ?_, rfl⟩
    simp [getRanges_of_progressOnly hpo]

def envC9 : Env :=
  { server := fun i _ => if i = 0 then .resp 200 [7] true else .resp 200 [3, 3] true,
    head := .resp 200 (some 6),
    mkdirOk := true,
    initFile := some 9,
    cancel := fun _ => false }

/-- Witness for C9: a 9-byte local file against a probed total of 6 resumes
(no shortcut), asks for `bytes=9-`, is answered 200, falls back to a full
GET and ends with the fresh 6-byte body on disk. -/
theorem claim_C9_witness :
    (download_file envC9).2.events.head? = some (Event.statusMsg "Resuming...") ∧
    (download_file envC9).1 = true ∧
    getRanges (download_file envC9).2.events = [some 9, none] ∧
    (download_file envC9).2.fs = some 6 := by
  have h := claim_C9 envC9 9 rfl rfl (fun _ => rfl) (by decide) (by decide)
  have h3 := h.2.2 [7] [3, 3] rfl rfl
  exact ⟨h.1, h3.1, h3.2.1, by simpa using h3.2.2⟩

/-- Claim C3: if the cancel flag becomes true at chunk iteration `k` during
streaming, the engine writes exactly the first `k` chunks and then stops —
within one chunk boundary — reporting "Cancelled" and returning false, with
the partial file left on disk (neither deleted nor truncated: the final
size is the sum of the chunks written before the flag was seen); and a
cancellation request also unblocks a transfer blocked in the pause wait,
whatever the pause flag does. -/
theorem claim_C3 (env : Env) (k : Nat) (ch : List Nat) (clean : Bool)
    (hmk : env.mkdirOk = true) (hfile : env.initFile = none)
    (hcan : ∀ n, env.cancel n = decide (k ≤ n))
    (hs : env.server 0 none = .resp 200 ch clean)
    (hk : k < ch.length) :
    (∃ evNew, progressOnly evNew ∧
      download_file env =
        (false, ⟨some ((ch.take k).sum),
          (Event.getReq none :: evNew) ++ [Event.statusMsg "Cancelled"], 1, k⟩)) ∧
    (∀ (pause : Nat → Bool) (k2 fuel t : Nat), k2 - t < fuel →
      (pauseWait pause (fun n => decide (k2 ≤ n)) t fuel).isSome = true) := by
  refine ⟨?_, fun pause k2 fuel t h => pauseWait_unblocks pause k2 fuel t h⟩
  have hshort : download_file env =
      retryLoop env (get_file_size env.head) 3 0 0 none ⟨none, [], 0, 0⟩ := by
    rw [download_file, if_neg (by simp [hmk])]
    dsimp only
    rw [hfile]
    dsimp only [Option.getD_none]
    rw [if_neg (by omega), if_neg (by omega)]
  obtain ⟨evNew, hpo, hstr⟩ := streamChunks_cancelAt (get_file_size env.head) k ch 0 0
    ⟨some 0, [Event.getReq none], 1, 0⟩ rfl (Nat.zero_le k) (by simpa using hk)
  have hatt : runAttempt env 0 none (get_file_size env.head) ⟨none, [], 0, 0⟩ =
      .fail ⟨some (0 + (ch.take (k - 0)).sum),
        ([Event.getReq none] ++ evNew) ++ [Event.statusMsg "Cancelled"], 1, k⟩ := by
    rw [runAttempt]
    simp only [issueGet]
    rw [show env.server (⟨none, [], 0, 0⟩ : St).getIdx none = .resp 200 ch clean from hs]
    dsimp only
    rw [if_neg (by omega)]
    rw [runBody, if_neg (by omega)]
    dsimp only
    rw [if_neg (by omega : ¬ (0 : Nat) > 0)]
    simp only [List.nil_append, Nat.zero_add]
    rw [show env.cancel = (fun n => decide (k ≤ n)) from funext hcan]
    rw [hstr]
    simp
  refine ⟨evNew, hpo, ?_⟩
  rw [hshort, show (3 : Nat) = 2 + 1 from rfl,
      retryLoop_succ_fail env (get_file_size env.head) 2 0 0 none _ _ hatt]
  simp

def envC3 : Env :=
  { server := fun _ _ => .resp 200 [4, 4, 4] true,
    head := .resp 200 (some 12),
    mkdirOk := true,
    initFile := none,
    cancel := fun n => decide (1 ≤ n) }

/-- Witness for C3: cancel requested at chunk iteration 1 of a 3-chunk body
leaves exactly the first 4-byte chunk on disk and returns false after a
"Cancelled" status; and a pause wait with cancel set from tick 2 on
unblocks within 3 polls. -/
theorem claim_C3_witness :
    (∃ evNew, progressOnly evNew ∧
      download_file envC3 =
        (false, ⟨some 4, (Event.getReq none :: evNew) ++ [Event.statusMsg "Cancelled"],
          1, 1⟩)) ∧
    (pauseWait (fun _ => true) (fun n => decide (2 ≤ n)) 0 3).isSome = true := by
  have h := claim_C3 envC3 1 [4, 4, 4] true rfl rfl (fun _ => rfl) rfl (by decide)
  exact ⟨by simpa using h.1, h.2 (fun _ => true) 2 3 0 (by decide)⟩

/-- Claim C1: transient failures are retried within a bound of 3 total
attempts: (i) whatever the server does, at most two 2-second back-offs ever
happen; (ii) a server that drops the stream exactly twice and then succeeds
completes successfully within 3 attempts, with a ≈2 s back-off before each
retry and each retry's Range header re-derived from the size of the file
actually on disk at that moment; (iii) a server that always fails makes the
transfer report "Network failed" and return false after exactly 3 attempts
(3 GETs, 2 back-offs). -/
theorem claim_C1 (env : Env)
    (hmk : env.mkdirOk = true) (hcan : ∀ n, env.cancel n = false)
    (hfile : env.initFile = none) :
    (sleeps (download_file env).2.events).length ≤ 2 ∧
    (∀ ch0 ch1 ch2 : List Nat,
      env.server 0 none = .resp 200 ch0 false →
      (∀ r, env.server 1 r = .resp 206 ch1 false) →
      (∀ r, env.server 2 r = .resp 206 ch2 true) →
      (download_file env).1 = true ∧
      getRanges (download_file env).2.events =
        [none, some ch0.sum, some (ch0.sum + ch1.sum)] ∧
      sleeps (download_file env).2.events = [2, 2] ∧
      (download_file env).2.fs = some (ch0.sum + ch1.sum + ch2.sum)) ∧
    ((∀ i r, env.server i r = .netFail) →
      download_file env =
        (false, ⟨none,
          [Event.getReq none,
           Event.statusMsg "Network error, retry 1/3...", Event.sleep 2,
           Event.getReq none,
           Event.statusMsg "Network error, retry 2/3...", Event.sleep 2,
           Event.getReq none, Event.statusMsg "Network failed"], 3, 0⟩)) := by
  have hshort : download_file env =
      retryLoop env (get_file_size env.head) 3 0 0 none ⟨none, [], 0, 0⟩ := by
    rw [download_file, if_neg (by simp [hmk])]
    dsimp only
    rw [hfile]
    dsimp only [Option.getD_none]
    rw [if_neg (by omega), if_neg (by omega)]
  refine ⟨download_file_sleeps_le env, ?_, ?_⟩
  · intro ch0 ch1 ch2 hs0 hs1 hs2
    obtain ⟨ev0, hpo0, hA0⟩ := runAttempt_resp env hcan 0 none (get_file_size env.head)
      ⟨none, [], 0, 0⟩ 200 ch0 false hs0 (Or.inl rfl) (by omega) rfl
    rw [if_neg (by decide)] at hA0
    simp only [List.nil_append, List.singleton_append, Nat.zero_add] at hA0
    have e1 := retryLoop_succ_transient_some env (get_file_size env.head) 2 0 0 none
      ⟨none, [], 0, 0⟩ _ _ ch0.sum hA0 (by omega) rfl
    simp only [St.emit, List.append_assoc, List.cons_append, List.singleton_append,
      List.nil_append, Nat.zero_add, Nat.reduceAdd] at e1
    obtain ⟨ev1, hpo1, hA1⟩ := runAttempt_resp env hcan ch0.sum (some ch0.sum)
      (get_file_size env.head)
      ⟨some ch0.sum,
        Event.getReq none ::
          (ev0 ++ [Event.statusMsg ("Network error, retry " ++ toString 1 ++ "/3..."),
            Event.sleep 2]),
        1, ch0.length⟩
      206 ch1 false (hs1 _) (Or.inr rfl) (by simp) rfl
    rw [if_neg (by decide)] at hA1
    simp only [List.cons_append, List.append_assoc, List.singleton_append,
      List.nil_append, Nat.reduceAdd] at hA1
    have e2 := retryLoop_succ_transient_some env (get_file_size env.head) 1 1 ch0.sum
      (some ch0.sum) _ _ _ (ch0.sum + ch1.sum) hA1 (by omega) rfl
    simp only [St.emit, List.append_assoc, List.cons_append, List.singleton_append,
      List.nil_append, Nat.reduceAdd] at e2
    obtain ⟨ev2, hpo2, hA2⟩ := runAttempt_resp env hcan (ch0.sum + ch1.sum)
      (some (ch0.sum + ch1.sum)) (get_file_size env.head)
      ⟨some (ch0.sum + ch1.sum),
        Event.getReq none ::
          (ev0 ++ Event.statusMsg ("Network error, retry " ++ toString 1 ++ "/3...") ::
            Event.sleep 2 :: Event.getReq (some ch0.sum) ::
            (ev1 ++ [Event.statusMsg ("Network error, retry " ++ toString 2 ++ "/3..."),
              Event.sleep 2])),
        2, ch0.length + ch1.length⟩
      206 ch2 true (hs2 _) (Or.inr rfl) (by simp) rfl
    rw [if_pos rfl] at hA2
    rw [hshort, show (3 : Nat) = 2 + 1 from rfl, e1, show (2 : Nat) = 1 + 1 from rfl, e2,
        show (1 : Nat) = 0 + 1 from rfl,
        retryLoop_succ_done env (get_file_size env.head) 0 2 _ _ _ _ hA2]
    refine ⟨rfl, ?_, ?_, ?_⟩
    · simp [getRanges_of_progressOnly hpo0, getRanges_of_progressOnly hpo1,
        getRanges_of_progressOnly hpo2]
    · simp [sleeps_of_progressOnly hpo0, sleeps_of_progressOnly hpo1,
        sleeps_of_progressOnly hpo2]
    · rfl
  · intro hf
    have hA : ∀ st : St, runAttempt env 0 none (get_file_size env.head) st =
        .transient { st with getIdx := st.getIdx + 1,
                             events := st.events ++ [Event.getReq none] } 0 :=
      fun st => runAttempt_netFail env 0 none _ st (hf st.getIdx none)
    rw [hshort, show (3 : Nat) = 2 + 1 from rfl,
        retryLoop_succ_transient_none env _ 2 0 0 none _ _ _ (hA _) (by omega) rfl]
    simp only [St.emit, Nat.zero_add]
    rw [show (2 : Nat) = 1 + 1 from rfl,
        retryLoop_succ_transient_none env _ 1 1 0 none _ _ _ (hA _) (by omega) rfl]
    simp only [St.emit]
    rw [show (1 : Nat) = 0 + 1 from rfl,
        retryLoop_succ_transient_exhaust env _ 0 2 0 none _ _ _ (hA _) (by omega)]
    simp only [St.emit]
    decide

def envC1 : Env :=
  { server := fun i _ =>
      if i = 0 then .resp 200 [5] false
      else if i = 1 then .resp 206 [3] false
      else .resp 206 [2] true,
    head := .resp 200 (some 10),
    mkdirOk := true,
    initFile := none,
    cancel := fun _ => false }

/-- Witness for C1: against a server that drops after 5 bytes, drops again
after 3 more, then delivers the last 2 cleanly, the transfer succeeds with
3 GETs ranged at the on-disk sizes, two 2-second back-offs, and a 10-byte
file. -/
theorem claim_C1_witness :
    (download_file envC1).1 = true ∧
    getRanges (download_file envC1).2.events = [none, some 5, some 8] ∧
    sleeps (download_file envC1).2.events = [2, 2] ∧
    (download_file envC1).2.fs = some 10 := by
  have h := (claim_C1 envC1 rfl (fun _ => rfl) rfl).2.1 [5] [3] [2] rfl
    (fun r => rfl) (fun r => rfl)
  simpa using h

/-- Claim C4, amended: when the server honors range requests — every actual
response to a GET that carries a Range header has status 206, so the
full-GET fallback of lines 174-176 never fires — the byte counts reported
by progress callbacks of a single transfer are non-decreasing: each
reported `bytesDownloaded` is ≥ every earlier one, across retry attempts
included.  (As stated, over all servers, the claim is false: when a retry's
ranged GET is answered 200, the fallback resets `bytesDownloaded` to 0 and
re-reports smaller values — see the counterexample.) -/
theorem claim_C4 (env : Env)
    (hR : ∀ i n, rangeHonored (env.server i (some n))) :
    List.Pairwise (fun x y : Nat => x ≤ y) (progressBytes (download_file env).2.events) :=
  List.chain'_iff_pairwise.mp (download_file_chain env hR)

def envC4w : Env :=
  { server := fun _ r =>
      match r with
      | some _ => .resp 206 [4] true
      | none => .resp 200 [6] false,
    head := .resp 200 (some 10),
    mkdirOk := true,
    initFile := none,
    cancel := fun _ => false }

/-- Witness for C4 on a concrete range-honoring server. -/
theorem claim_C4_witness :
    List.Pairwise (fun x y : Nat => x ≤ y) (progressBytes (download_file envC4w).2.events) :=
  claim_C4 envC4w (fun _ _ => rfl)

def envC4 : Env :=
  { server := fun i _ =>
      if i = 0 then .resp 200 [500] false
      else .resp 200 [10] true,
    head := .resp 200 (some 1000),
    mkdirOk := true,
    initFile := none,
    cancel := fun _ => false }

/-- Counterexample to C4 as stated: a fresh transfer writes 500 bytes
(progress reports 500), the stream drops, the retry asks for
`bytes=500-` but the server answers 200, so the engine falls back to a full
GET, truncates, and reports 10 — the progress byte sequence [500, 10] is
not non-decreasing. -/
theorem claim_C4_cex :
    progressBytes (download_file envC4).2.events = [500, 10] ∧
    ¬ List.Pairwise (fun x y : Nat => x ≤ y)
        (progressBytes (download_file envC4).2.events) := by
  constructor
  · rfl
  · intro h
    rw [show progressBytes (download_file envC4).2.events = [500, 10] from rfl] at h
    simp at h

end HFDownload
